import Mathlib

set_option linter.dupNamespace false
set_option linter.unusedVariables false

/-!
Verification of the No Thanks game engine.

This development shallowly embeds the core of the `no-thanks-ai` repository
(`src/main.rs`): the game state machine (`NoThanksGame`, `make_move`,
`available_moves`, `is_terminal`), the scoring function (`compute_scores`),
the search-adapter evaluation contract (`interpret_evaluation_for_player`,
`evaluate_existing_state`), and the partial-observation reconstruction loop
from `with_humans`.

Rust `usize` arithmetic and indexing are modelled over `Nat`; every operation
that can panic in Rust (out-of-bounds indexing, `Option::unwrap` on `None`,
unsigned subtraction underflow, the `panic!` on an invalid player count)
is modelled as returning `none`.
-/

def LOW_CARD : Nat := 3

def HIGH_CARD : Nat := 35

def DISCARDED_CARDS : Nat := 9

def NUM_CARDS : Nat := HIGH_CARD - LOW_CARD + 1

/-- The move type of `src/main.rs` (`enum Move`). -/
inductive Move where
  | Pass : Move
  | Take : Move
  | NextCard : Nat → Move
  deriving DecidableEq, Repr

/-- The decision-maker type of `src/main.rs` (`enum Player`): the chance role
(`Random`) or a seated player. -/
inductive Player where
  | Random : Player
  | Player : Nat → Player
  deriving DecidableEq, Repr

/-- The game state aggregate (`struct NoThanksGame`). -/
structure NoThanksGame where
  active_tokens : Nat
  active_card : Option Nat
  active_player : Nat
  cards_taken : Nat
  player_tokens : List Nat
  card_owners : List (Option Nat)
  deriving DecidableEq, Repr

/-- The `match num_players` table inside `NoThanksGame::new`; `none` models
the `panic!("Invalid number of players")` arm. -/
def startingTokensFor : Nat → Option Nat
  | 3 => some 11
  | 4 => some 11
  | 5 => some 11
  | 6 => some 9
  | 7 => some 7
  | _ => none

/-- Embedding of `NoThanksGame::new`: the state is only constructed after the starting-token
table succeeds; an invalid player count yields `none` with no partial state. -/
def NoThanksGame.new (num_players : Nat) : Option NoThanksGame :=
  match startingTokensFor num_players with
  | none => none
  | some starting_tokens => some {
      active_tokens := 0,
      active_card := none,
      active_player := 0,
      cards_taken := 0,
      player_tokens := List.replicate num_players starting_tokens,
      card_owners := List.replicate NUM_CARDS none }

/-- Embedding of `NoThanksGame::is_terminal`: `cards_taken >= NUM_CARDS - DISCARDED_CARDS`. -/
def NoThanksGame.is_terminal (g : NoThanksGame) : Bool :=
  decide (NUM_CARDS - DISCARDED_CARDS ≤ g.cards_taken)

/-- The `for (i, owner) in card_owners.iter().enumerate()` loop body of
`compute_scores`, with the enumeration index, the `last_owner` tracker and the
mutable `scores` vector carried explicitly; `none` models the panic of
`scores[owner]` on an out-of-range owner index. -/
def scoreLoop : List (Option Nat) → Nat → Option Nat → List Int → Option (List Int)
  | [], _, _, scores => some scores
  | o :: rest, i, last_owner, scores =>
    if o = last_owner then
      scoreLoop rest (i + 1) last_owner scores
    else
      match o with
      | none => scoreLoop rest (i + 1) none scores
      | some owner =>
        match scores.get? owner with
        | none => none
        | some v =>
          scoreLoop rest (i + 1) (some owner) (scores.set owner (v + ((i + LOW_CARD : Nat) : Int)))

/-- Embedding of `NoThanksGame::compute_scores`: scores start at the negated token reserves
and the ownership array is scanned in index order. -/
def NoThanksGame.compute_scores (g : NoThanksGame) : Option (List Int) :=
  scoreLoop g.card_owners 0 none (g.player_tokens.map (fun (t : Nat) => -(t : Int)))

/-- Embedding of `GameState::current_player` for `NoThanksGame`. -/
def NoThanksGame.current_player (g : NoThanksGame) : Player :=
  match g.active_card with
  | none => Player.Random
  | some _ => Player.Player g.active_player

/-- Embedding of `GameState::available_moves` for `NoThanksGame`; `none` models the panic of
`player_tokens[active_player]` when the active player index is out of range. -/
def NoThanksGame.available_moves (g : NoThanksGame) : Option (List Move) :=
  match g.active_card with
  | none =>
    if !g.is_terminal then
      some (g.card_owners.enum.filterMap (fun p =>
        match p.2 with
        | none => some (Move.NextCard p.1)
        | some _ => none))
    else
      some []
  | some _ =>
    match g.player_tokens.get? g.active_player with
    | none => none
    | some t => if t > 0 then some [Move.Pass, Move.Take] else some [Move.Take]

/-- Embedding of `GameState::make_move` for `NoThanksGame`; `none` models the Rust panics:
out-of-range indexing of `player_tokens` or `card_owners`, the underflow of
`player_tokens[active_player] -= 1`, and `active_card.unwrap()` on `None`. -/
def NoThanksGame.make_move (g : NoThanksGame) : Move → Option NoThanksGame
  | Move.NextCard card => some { g with active_card := some card }
  | Move.Pass =>
    match g.player_tokens.get? g.active_player with
    | none => none
    | some t =>
      if t = 0 then none
      else some { g with
        active_tokens := g.active_tokens + 1,
        player_tokens := g.player_tokens.set g.active_player (t - 1),
        active_player := (g.active_player + 1) % g.player_tokens.length }
  | Move.Take =>
    match g.player_tokens.get? g.active_player with
    | none => none
    | some t =>
      match g.active_card with
      | none => none
      | some card =>
        if card < g.card_owners.length then
          some { g with
            player_tokens := g.player_tokens.set g.active_player (t + g.active_tokens),
            active_tokens := 0,
            card_owners := g.card_owners.set card (some g.active_player),
            active_card := none,
            cards_taken := g.cards_taken + 1 }
        else none

/-- Embedding of `MyEvaluator::interpret_evaluation_for_player`: chance contributes 0, a
seated player the negation of their entry; `none` models the panic of
`evaln[*i]` on an out-of-range player index. -/
def interpret_evaluation_for_player (evaln : List Int) (player : Player) : Option Int :=
  match player with
  | Player.Random => some 0
  | Player.Player i =>
    match evaln.get? i with
    | none => none
    | some v => some (-v)

/-- Embedding of `MyEvaluator::evaluate_existing_state`: returns the stored evaluation
vector unchanged, ignoring the state. -/
def evaluate_existing_state (_state : NoThanksGame) (evaln : List Int) : List Int :=
  evaln

/-- Embedding of `MyEvaluator::evaluate_new_state`: a unit prior per move paired with the
scoring function's output. -/
def evaluate_new_state (state : NoThanksGame) (moves : List Move) :
    Option (List Unit × List Int) :=
  match state.compute_scores with
  | none => none
  | some scores => some (List.replicate moves.length (), scores)

/-- The reconstruction loop of `with_humans`
(`while game_at_last_card.active_tokens < tokens { make_move(Pass) }`):
pass until the reported on-card total is reached, propagating a panic of
`make_move` as `none`. -/
def passUntil (tokens : Nat) (g : NoThanksGame) : Option NoThanksGame :=
  if h : g.active_tokens < tokens then
    match h2 : g.make_move Move.Pass with
    | none => none
    | some g' => passUntil tokens g'
  else some g
termination_by tokens - g.active_tokens
decreasing_by
  simp only [NoThanksGame.make_move] at h2
  rcases hg : g.player_tokens.get? g.active_player with _ | t <;>
    rw [hg] at h2 <;> dsimp only at h2
  · exact Option.noConfusion h2
  · by_cases ht : t = 0
    · rw [if_pos ht] at h2
      exact Option.noConfusion h2
    · rw [if_neg ht] at h2
      cases h2
      dsimp only
      omega

/-- The full reconstruction of `with_humans` lines 321–329: replay passes from
the checkpoint until the reported total is reached, then take. -/
def reconstruct (checkpoint : NoThanksGame) (tokens : Nat) : Option NoThanksGame :=
  match passUntil tokens checkpoint with
  | none => none
  | some g => g.make_move Move.Take

/-- A card index `i` starts a maximal run of consecutive card indices owned by
player `p`: `p` owns card `i` but not card `i - 1` (or `i = 0`).  Stated from
the specification's description of scoring runs. -/
def runStart (owners : List (Option Nat)) (p i : Nat) : Prop :=
  owners.get? i = some (some p) ∧ (i = 0 ∨ owners.get? (i - 1) ≠ some (some p))

instance (owners : List (Option Nat)) (p i : Nat) : Decidable (runStart owners p i) := by
  unfold runStart
  exact inferInstance

/-- Specification-side card credit of player `p`: each maximal run of
consecutive card indices owned by `p` contributes only the face value
(`index + LOW_CARD`) of its lowest card. -/
def runCredit (owners : List (Option Nat)) (p : Nat) : Int :=
  ∑ i in Finset.range owners.length,
    if runStart owners p i then ((i + LOW_CARD : Nat) : Int) else 0

/-- Specification-side scores: one entry per player, the negated token reserve
plus the run credit. -/
def specScores (g : NoThanksGame) : List Int :=
  (List.range g.player_tokens.length).map (fun p =>
    -((((g.player_tokens.get? p).getD 0 : Nat)) : Int) + runCredit g.card_owners p)

/-- Operational form of the run credit: the credit the remaining scan `rest`,
entered at enumeration index `i` with `last_owner` tracker `lo`, adds to
player `q`. -/
def restCredit (rest : List (Option Nat)) (i : Nat) (lo : Option Nat) (q : Nat) : Int :=
  match rest with
  | [] => 0
  | o :: rest' =>
    (if o = some q ∧ o ≠ lo then ((i + LOW_CARD : Nat) : Int) else 0) +
      restCredit rest' (i + 1) o q

/-- The owner entry preceding scan position `j`: the virtual previous owner
`lo` when `j = 0`, otherwise the entry at `j - 1`. -/
def prevAt (lo : Option Nat) (rest : List (Option Nat)) : Nat → Option (Option Nat)
  | 0 => some lo
  | j + 1 => rest.get? j

/-- States reachable from a successfully created `n`-player game by legal
moves: each step picks a move offered by `available_moves` and applies
`make_move`. -/
inductive Reachable (n : Nat) : NoThanksGame → Prop where
  | init (g : NoThanksGame) : NoThanksGame.new n = some g → Reachable n g
  | step (g : NoThanksGame) (ms : List Move) (m : Move) (g' : NoThanksGame) :
      Reachable n g → g.available_moves = some ms → m ∈ ms →
      g.make_move m = some g' → Reachable n g'

/-- The inductive invariant maintained by every reachable state. -/
structure GameInv (n : Nat) (g : NoThanksGame) : Prop where
  len_players : g.player_tokens.length = n
  n_pos : 0 < n
  ap_lt : g.active_player < n
  len_owners : g.card_owners.length = NUM_CARDS
  taken_count : g.cards_taken = g.card_owners.countP (fun o => o.isSome)
  active_unowned : ∀ c, g.active_card = some c → g.card_owners.get? c = some none
  active_nonterminal : ∀ c, g.active_card = some c →
      g.cards_taken < NUM_CARDS - DISCARDED_CARDS
  taken_le : g.cards_taken ≤ NUM_CARDS - DISCARDED_CARDS

/-- The freshly created three-player state (`new 3`). -/
def initialThree : NoThanksGame := {
  active_tokens := 0,
  active_card := none,
  active_player := 0,
  cards_taken := 0,
  player_tokens := List.replicate 3 11,
  card_owners := List.replicate NUM_CARDS none }

/-- The three-player state after revealing card index 0. -/
def revealedThree : NoThanksGame := { initialThree with active_card := some 0 }

/-- A three-player state with card index 3 revealed, two tokens on it, and
player 2 to act: the position just before the take in the specification's
worked scenario. -/
def beforeTakeState : NoThanksGame := {
  active_tokens := 2,
  active_card := some 3,
  active_player := 2,
  cards_taken := 0,
  player_tokens := [10, 10, 11],
  card_owners := List.replicate NUM_CARDS none }

/-- A state whose revealed card index (`NUM_CARDS`) lies outside `card_owners`:
the fields are well typed for the Rust struct, yet `make_move(Take)` panics on
`card_owners[active_card.unwrap()]`. -/
def oobCardState : NoThanksGame := {
  active_tokens := 0,
  active_card := some NUM_CARDS,
  active_player := 0,
  cards_taken := 0,
  player_tokens := [11, 11, 11],
  card_owners := List.replicate NUM_CARDS none }

/-- A checkpoint at a fresh reveal in which the player to act is already out
of tokens. -/
def bankruptCheckpoint : NoThanksGame := {
  active_tokens := 0,
  active_card := some 0,
  active_player := 0,
  cards_taken := 0,
  player_tokens := [0, 11, 11],
  card_owners := List.replicate NUM_CARDS none }

/-- A two-player position used to exercise the scoring function: player 0
holds the run 6, 7 (card indices 3, 4) and player 1 the solitary 13 (card
index 10). -/
def scoringState : NoThanksGame := {
  active_tokens := 0,
  active_card := none,
  active_player := 0,
  cards_taken := 3,
  player_tokens := [2, 3],
  card_owners := (((List.replicate NUM_CARDS none).set 3 (some 0)).set 4 (some 0)).set 10 (some 1) }

/-- The specification's worked scenario: `new 3`, reveal card index 3 (face
value 6), player 0 passes, player 1 passes, player 2 takes. -/
def c6Scenario : Option NoThanksGame :=
  ((((NoThanksGame.new 3).bind (fun g => g.make_move (Move.NextCard 3))).bind
    (fun g => g.make_move Move.Pass)).bind
    (fun g => g.make_move Move.Pass)).bind
    (fun g => g.make_move Move.Take)

theorem startingTokensFor_bounds (n t : Nat) (h : startingTokensFor n = some t) :
    3 ≤ n ∧ n ≤ 7 := by
  rcases n with _|_|_|_|_|_|_|_|m
  · exact Option.noConfusion h
  · exact Option.noConfusion h
  · exact Option.noConfusion h
  · exact ⟨by omega, by omega⟩
  · exact ⟨by omega, by omega⟩
  · exact ⟨by omega, by omega⟩
  · exact ⟨by omega, by omega⟩
  · exact ⟨by omega, by omega⟩
  · exact Option.noConfusion h

theorem make_move_nextCard (g : NoThanksGame) (c : Nat) :
    g.make_move (Move.NextCard c) = some { g with active_card := some c } := rfl

theorem make_move_pass_eq (g : NoThanksGame) (t : Nat)
    (hg : g.player_tokens.get? g.active_player = some t) (ht : t ≠ 0) :
    g.make_move Move.Pass = some { g with
      active_tokens := g.active_tokens + 1,
      player_tokens := g.player_tokens.set g.active_player (t - 1),
      active_player := (g.active_player + 1) % g.player_tokens.length } := by
  simp only [NoThanksGame.make_move, hg]
  rw [if_neg ht]

theorem make_move_pass_inv {g g' : NoThanksGame} (h : g.make_move Move.Pass = some g') :
    ∃ t, g.player_tokens.get? g.active_player = some t ∧ t ≠ 0 ∧
      g' = { g with
        active_tokens := g.active_tokens + 1,
        player_tokens := g.player_tokens.set g.active_player (t - 1),
        active_player := (g.active_player + 1) % g.player_tokens.length } := by
  simp only [NoThanksGame.make_move] at h
  rcases hg : g.player_tokens.get? g.active_player with _ | t <;>
    rw [hg] at h <;> dsimp only at h
  · exact Option.noConfusion h
  · by_cases ht : t = 0
    · rw [if_pos ht] at h
      exact Option.noConfusion h
    · rw [if_neg ht] at h
      exact ⟨t, rfl, ht, (Option.some.inj h).symm⟩

theorem make_move_take_eq (g : NoThanksGame) (c t : Nat)
    (hc : g.active_card = some c)
    (hg : g.player_tokens.get? g.active_player = some t)
    (hlt : c < g.card_owners.length) :
    g.make_move Move.Take = some { g with
      player_tokens := g.player_tokens.set g.active_player (t + g.active_tokens),
      active_tokens := 0,
      card_owners := g.card_owners.set c (some g.active_player),
      active_card := none,
      cards_taken := g.cards_taken + 1 } := by
  simp only [NoThanksGame.make_move, hg, hc]
  rw [if_pos hlt]

theorem make_move_take_inv {g g' : NoThanksGame} (h : g.make_move Move.Take = some g') :
    ∃ c t, g.active_card = some c ∧ g.player_tokens.get? g.active_player = some t ∧
      c < g.card_owners.length ∧
      g' = { g with
        player_tokens := g.player_tokens.set g.active_player (t + g.active_tokens),
        active_tokens := 0,
        card_owners := g.card_owners.set c (some g.active_player),
        active_card := none,
        cards_taken := g.cards_taken + 1 } := by
  simp only [NoThanksGame.make_move] at h
  rcases hg : g.player_tokens.get? g.active_player with _ | t <;>
    rw [hg] at h <;> dsimp only at h
  · exact Option.noConfusion h
  · rcases hc : g.active_card with _ | c <;> rw [hc] at h <;> dsimp only at h
    · exact Option.noConfusion h
    · by_cases hlt : c < g.card_owners.length
      · rw [if_pos hlt] at h
        exact ⟨c, t, rfl, rfl, hlt, (Option.some.inj h).symm⟩
      · rw [if_neg hlt] at h
        exact Option.noConfusion h

theorem available_moves_chance_active (g : NoThanksGame) (hc : g.active_card = none)
    (ht : g.is_terminal = false) :
    g.available_moves = some (g.card_owners.enum.filterMap (fun p =>
      match p.2 with
      | none => some (Move.NextCard p.1)
      | some _ => none)) := by
  simp [NoThanksGame.available_moves, hc, ht]

theorem available_moves_chance_terminal (g : NoThanksGame) (hc : g.active_card = none)
    (ht : g.is_terminal = true) : g.available_moves = some [] := by
  simp [NoThanksGame.available_moves, hc, ht]

theorem available_moves_player_eq (g : NoThanksGame) (c t : Nat)
    (hc : g.active_card = some c)
    (hg : g.player_tokens.get? g.active_player = some t) :
    g.available_moves = some (if 0 < t then [Move.Pass, Move.Take] else [Move.Take]) := by
  simp only [NoThanksGame.available_moves, hc]
  rw [hg]
  dsimp only
  by_cases h0 : 0 < t
  · rw [if_pos h0, if_pos h0]
  · rw [if_neg h0, if_neg h0]

theorem mem_chanceMoves {l : List (Option Nat)} {m : Move} :
    m ∈ l.enum.filterMap (fun p =>
      match p.2 with
      | none => some (Move.NextCard p.1)
      | some _ => none) ↔ ∃ i, m = Move.NextCard i ∧ l.get? i = some none := by
  rw [List.mem_filterMap]
  constructor
  · rintro ⟨⟨i, o⟩, hmem, hf⟩
    rcases o with _ | p
    · exact ⟨i, (Option.some.inj hf).symm, List.mem_enum_iff_get?.mp hmem⟩
    · exact Option.noConfusion hf
  · rintro ⟨i, rfl, hget⟩
    exact ⟨(i, none), List.mem_enum_iff_get?.mpr hget, rfl⟩

theorem enumFrom_chanceMoves (l : List (Option Nat)) : ∀ k : Nat,
    (List.enumFrom k l).filterMap (fun p =>
      match p.2 with
      | none => some (Move.NextCard p.1)
      | some _ => none)
    = (List.range l.length).filterMap (fun i =>
        if l.get? i = some none then some (Move.NextCard (k + i)) else none) := by
  induction l with
  | nil => intro k; rfl
  | cons o rest ih =>
    intro k
    have hstep : List.enumFrom k (o :: rest) = (k, o) :: List.enumFrom (k + 1) rest := rfl
    rw [hstep, List.filterMap_cons, List.length_cons, List.range_succ_eq_map,
      List.filterMap_cons, List.filterMap_map]
    have hfun : ((fun i =>
        if (o :: rest).get? i = some none then some (Move.NextCard (k + i)) else none)
          ∘ Nat.succ)
        = (fun i => if rest.get? i = some none then some (Move.NextCard ((k + 1) + i)) else none) := by
      funext i
      simp only [Function.comp_apply, List.get?_cons_succ]
      by_cases hcond : rest.get? i = some none
      · rw [if_pos hcond, if_pos hcond]
        have harith : k + i.succ = (k + 1) + i := by omega
        rw [harith]
      · rw [if_neg hcond, if_neg hcond]
    rw [hfun, ← ih (k + 1)]
    rcases o with _ | p
    · simp
    · simp

theorem chanceMoves_eq_range (l : List (Option Nat)) :
    l.enum.filterMap (fun p =>
      match p.2 with
      | none => some (Move.NextCard p.1)
      | some _ => none)
    = (List.range l.length).filterMap (fun i =>
        if l.get? i = some none then some (Move.NextCard i) else none) := by
  have h := enumFrom_chanceMoves l 0
  simpa using h

/-- C8: `new` succeeds exactly for 3–7 players, with 11 starting tokens for
3–5 players, 9 for 6, 7 for 7, every other field zeroed or empty; every other
player count fails immediately with no partial state. -/
theorem c8_new_player_counts (n : Nat) :
    (n = 3 ∨ n = 4 ∨ n = 5 → NoThanksGame.new n = some
      { active_tokens := 0, active_card := none, active_player := 0, cards_taken := 0,
        player_tokens := List.replicate n 11, card_owners := List.replicate NUM_CARDS none })
  ∧ (n = 6 → NoThanksGame.new n = some
      { active_tokens := 0, active_card := none, active_player := 0, cards_taken := 0,
        player_tokens := List.replicate n 9, card_owners := List.replicate NUM_CARDS none })
  ∧ (n = 7 → NoThanksGame.new n = some
      { active_tokens := 0, active_card := none, active_player := 0, cards_taken := 0,
        player_tokens := List.replicate n 7, card_owners := List.replicate NUM_CARDS none })
  ∧ (n < 3 ∨ 7 < n → NoThanksGame.new n = none) := by
  refine ⟨?_, ?_, ?_, ?_⟩
  · rintro (rfl | rfl | rfl) <;> rfl
  · rintro rfl; rfl
  · rintro rfl; rfl
  · intro h
    rcases n with _|_|_|_|_|_|_|_|m
    · rfl
    · rfl
    · rfl
    · omega
    · omega
    · omega
    · omega
    · omega
    · rfl

/-- Witness for C8 at the concrete player counts 3 and 8. -/
theorem c8_new_player_counts_witness :
    NoThanksGame.new 3 = some
      { active_tokens := 0, active_card := none, active_player := 0, cards_taken := 0,
        player_tokens := List.replicate 3 11,
        card_owners := List.replicate NUM_CARDS none } ∧
    NoThanksGame.new 8 = none :=
  ⟨(c8_new_player_counts 3).1 (Or.inl rfl), (c8_new_player_counts 8).2.2.2 (Or.inr (by omega))⟩

/-- C9: the adapter interprets an evaluation vector as 0 for Chance and as the
negated entry `i` for Player `i`, and re-evaluating an existing state returns
the stored vector unchanged, independent of the state. -/
theorem c9_evaluator_contract :
    (∀ evaln : List Int, interpret_evaluation_for_player evaln Player.Random = some 0)
  ∧ (∀ (evaln : List Int) (i : Nat) (v : Int), evaln.get? i = some v →
      interpret_evaluation_for_player evaln (Player.Player i) = some (-v))
  ∧ (∀ (s : NoThanksGame) (evaln : List Int), evaluate_existing_state s evaln = evaln) := by
  refine ⟨fun evaln => rfl, fun evaln i v h => ?_, fun s evaln => rfl⟩
  simp only [interpret_evaluation_for_player]
  rw [h]

/-- Witness for C9 on the vector [3, 5]. -/
theorem c9_evaluator_contract_witness :
    interpret_evaluation_for_player [3, 5] Player.Random = some 0 ∧
    interpret_evaluation_for_player [3, 5] (Player.Player 1) = some (-5) ∧
    evaluate_existing_state initialThree [3, 5] = [3, 5] :=
  ⟨c9_evaluator_contract.1 [3, 5], c9_evaluator_contract.2.1 [3, 5] 1 5 rfl,
    c9_evaluator_contract.2.2 initialThree [3, 5]⟩

/-- C1 as stated is false: taking from `beforeTakeState` (player 2 of 3 to
act) leaves `active_player` at 2, while the claimed advance modulo the player
count would move it to 0. -/
theorem c1_take_keeps_active_player_counterexample :
    (beforeTakeState.make_move Move.Take).map NoThanksGame.active_player = some 2 ∧
    (beforeTakeState.active_player + 1) % beforeTakeState.player_tokens.length = 0 ∧
    ¬((beforeTakeState.make_move Move.Take).map NoThanksGame.active_player = some 0) := by
  decide

/-- C1 amended: `TakeCard` adds `active_tokens` to the acting player's
reserve, resets `active_tokens` to 0, records the acting player as owner of
the active card, clears `active_card`, increments `cards_taken` — and leaves
`active_player` unchanged, so the taker is the first to face the following
reveal's decision. -/
theorem c1_take_transition (g : NoThanksGame) (c t : Nat)
    (hc : g.active_card = some c)
    (hg : g.player_tokens.get? g.active_player = some t)
    (hlt : c < g.card_owners.length) :
    g.make_move Move.Take = some
      { g with
        player_tokens := g.player_tokens.set g.active_player (t + g.active_tokens),
        active_tokens := 0,
        card_owners := g.card_owners.set c (some g.active_player),
        active_card := none,
        cards_taken := g.cards_taken + 1 } :=
  make_move_take_eq g c t hc hg hlt

/-- Witness for C1's amended transition at `beforeTakeState`. -/
theorem c1_take_transition_witness :
    beforeTakeState.make_move Move.Take = some
      { beforeTakeState with
        player_tokens := beforeTakeState.player_tokens.set beforeTakeState.active_player
          (11 + beforeTakeState.active_tokens),
        active_tokens := 0,
        card_owners := beforeTakeState.card_owners.set 3 (some beforeTakeState.active_player),
        active_card := none,
        cards_taken := beforeTakeState.cards_taken + 1 } :=
  c1_take_transition beforeTakeState 3 11 rfl rfl (by decide)

/-- C6 as stated is false: the worked scenario's computed scores are
[-10, -10, -7]; the claimed vector [-10, -10, 19] adds player 2's token
reserve instead of subtracting the negated reserve. -/
theorem c6_scenario_scores_counterexample :
    c6Scenario.bind NoThanksGame.compute_scores = some [-10, -10, -7] ∧
    ¬(c6Scenario.bind NoThanksGame.compute_scores = some [-10, -10, 19]) := by
  decide

/-- C6 amended: the scenario reaches tokens [10, 10, 13], no active card and
one card taken, and its scores are P0 = -10, P1 = -10, P2 = 6 - 13 = -7. -/
theorem c6_scenario_correct :
    c6Scenario = some
      { active_tokens := 0, active_card := none, active_player := 2, cards_taken := 1,
        player_tokens := [10, 10, 13],
        card_owners := (List.replicate NUM_CARDS none).set 3 (some 2) } ∧
    c6Scenario.bind NoThanksGame.compute_scores = some [-10, -10, -7] := by
  decide

/-- C10 as stated is false: in `oobCardState` the revealed card index equals
`NUM_CARDS`, `available_moves` offers `Take`, yet `make_move` hits the
out-of-range `card_owners` index and panics. -/
theorem c10_take_oob_counterexample :
    oobCardState.available_moves = some [Move.Pass, Move.Take] ∧
    Move.Take ∈ [Move.Pass, Move.Take] ∧
    oobCardState.make_move Move.Take = none := by
  decide

/-- C10 amended: whenever the revealed card index (if any) lies inside
`card_owners`, every move offered by `available_moves` applies without panic:
the unwrap of `active_card` succeeds and the pass subtraction cannot
underflow. -/
theorem c10_make_move_total (g : NoThanksGame) (ms : List Move) (m : Move)
    (hcard : ∀ c, g.active_card = some c → c < g.card_owners.length)
    (hav : g.available_moves = some ms) (hm : m ∈ ms) :
    (g.make_move m).isSome = true := by
  rcases hc : g.active_card with _ | c
  · by_cases ht : g.is_terminal = true
    · rw [available_moves_chance_terminal g hc ht] at hav
      cases Option.some.inj hav
      cases hm
    · have ht' : g.is_terminal = false := by
        cases hbool : g.is_terminal
        · rfl
        · exact absurd hbool ht
      rw [available_moves_chance_active g hc ht'] at hav
      cases Option.some.inj hav
      rcases mem_chanceMoves.mp hm with ⟨i, rfl, hi⟩
      rfl
  · rcases hg : g.player_tokens.get? g.active_player with _ | t
    · exfalso
      simp only [NoThanksGame.available_moves, hc] at hav
      rw [hg] at hav
      exact Option.noConfusion hav
    · rw [available_moves_player_eq g c t hc hg] at hav
      cases Option.some.inj hav
      by_cases h0 : 0 < t
      · rw [if_pos h0] at hm
        simp only [List.mem_cons, List.mem_singleton] at hm
        rcases hm with rfl | rfl | hm
        · rw [make_move_pass_eq g t hg (by omega)]
          rfl
        · rw [make_move_take_eq g c t hc hg (hcard c hc)]
          rfl
        · cases hm
      · rw [if_neg h0] at hm
        simp only [List.mem_singleton] at hm
        cases hm
        rw [make_move_take_eq g c t hc hg (hcard c hc)]
        rfl

/-- Witness for C10's amended statement at `beforeTakeState` taking. -/
theorem c10_make_move_total_witness :
    (beforeTakeState.make_move Move.Take).isSome = true :=
  c10_make_move_total beforeTakeState [Move.Pass, Move.Take] Move.Take
    (by
      intro c hc
      rw [show beforeTakeState.active_card = some 3 from rfl] at hc
      cases hc
      decide)
    (by decide) (by decide)

/-- C5: the legal-move set is exactly — under the Chance role one `NextCard`
per card index without an owner (and empty when terminal); under a player
role `[Pass, Take]` when the reserve is positive and `[Take]` alone when the
reserve is zero. -/
theorem c5_available_moves_exact (g : NoThanksGame) :
    (g.current_player = Player.Random → g.is_terminal = false →
      g.available_moves = some ((List.range g.card_owners.length).filterMap (fun i =>
        if g.card_owners.get? i = some none then some (Move.NextCard i) else none)))
  ∧ (g.current_player = Player.Random → g.is_terminal = true →
      g.available_moves = some [])
  ∧ (∀ i t : Nat, g.current_player = Player.Player i →
      g.player_tokens.get? i = some t →
      (0 < t → g.available_moves = some [Move.Pass, Move.Take]) ∧
      (t = 0 → g.available_moves = some [Move.Take])) := by
  refine ⟨?_, ?_, ?_⟩
  · intro hcp ht
    rcases hc : g.active_card with _ | c
    · rw [available_moves_chance_active g hc ht, chanceMoves_eq_range]
    · rw [NoThanksGame.current_player, hc] at hcp
      exact Player.noConfusion hcp
  · intro hcp ht
    rcases hc : g.active_card with _ | c
    · exact available_moves_chance_terminal g hc ht
    · rw [NoThanksGame.current_player, hc] at hcp
      exact Player.noConfusion hcp
  · intro i t hcp hti
    rcases hc : g.active_card with _ | c
    · rw [NoThanksGame.current_player, hc] at hcp
      exact Player.noConfusion hcp
    · rw [NoThanksGame.current_player, hc] at hcp
      have hap : g.active_player = i := by
        cases hcp
        rfl
      have hg : g.player_tokens.get? g.active_player = some t := by
        rw [hap]
        exact hti
      constructor
      · intro h0
        rw [available_moves_player_eq g c t hc hg, if_pos h0]
      · intro h0
        rw [available_moves_player_eq g c t hc hg, if_neg (by omega)]

/-- Witness for C5 at `beforeTakeState`: player 2 holds 11 tokens, so both
moves are offered. -/
theorem c5_available_moves_exact_witness :
    beforeTakeState.available_moves = some [Move.Pass, Move.Take] :=
  ((c5_available_moves_exact beforeTakeState).2.2 2 11 rfl rfl).1 (by omega)

theorem countP_set_isSome (x : Nat) : ∀ (l : List (Option Nat)) (c : Nat),
    l.get? c = some none →
    (l.set c (some x)).countP (fun o => o.isSome) = l.countP (fun o => o.isSome) + 1 := by
  intro l
  induction l with
  | nil => intro c h; exact Option.noConfusion h
  | cons a rest ih =>
    intro c h
    rcases c with _ | c
    · rw [List.get?_cons_zero] at h
      cases Option.some.inj h
      rw [List.set_cons_zero]
      simp [List.countP_cons]
    · rw [List.get?_cons_succ] at h
      rw [List.set_cons_succ]
      simp only [List.countP_cons, ih c h]
      omega

theorem sum_set_nat (v : Nat) : ∀ (l : List Nat) (i t : Nat),
    l.get? i = some t → (l.set i v).sum + t = l.sum + v := by
  intro l
  induction l with
  | nil => intro i t h; exact Option.noConfusion h
  | cons a rest ih =>
    intro i t h
    rcases i with _ | i
    · rw [List.get?_cons_zero] at h
      cases Option.some.inj h
      rw [List.set_cons_zero]
      simp [List.sum_cons]
      omega
    · rw [List.get?_cons_succ] at h
      rw [List.set_cons_succ]
      simp only [List.sum_cons]
      have := ih i t h
      omega

theorem gameInv_new {n : Nat} {g : NoThanksGame} (h : NoThanksGame.new n = some g) :
    GameInv n g := by
  unfold NoThanksGame.new at h
  rcases hst : startingTokensFor n with _ | t <;> rw [hst] at h <;> dsimp only at h
  · exact Option.noConfusion h
  · have hb := startingTokensFor_bounds n t hst
    cases Option.some.inj h
    refine ⟨?_, ?_, ?_, ?_, ?_, ?_, ?_, ?_⟩
    · exact List.length_replicate n t
    · omega
    · dsimp only
      omega
    · exact List.length_replicate NUM_CARDS none
    · dsimp only
      symm
      rw [List.countP_eq_zero]
      intro o ho
      rw [List.eq_of_mem_replicate ho]
      simp
    · intro c hc
      exact Option.noConfusion hc
    · intro c hc
      exact Option.noConfusion hc
    · exact Nat.zero_le _

theorem gameInv_step {n : Nat} {g g' : NoThanksGame} {ms : List Move} {m : Move}
    (inv : GameInv n g) (hav : g.available_moves = some ms) (hm : m ∈ ms)
    (hmk : g.make_move m = some g') : GameInv n g' := by
  rcases m with _ | _ | i
  · rcases make_move_pass_inv hmk with ⟨t, hg2, ht, rfl⟩
    refine ⟨?_, inv.n_pos, ?_, inv.len_owners, inv.taken_count, inv.active_unowned,
      inv.active_nonterminal, inv.taken_le⟩
    · dsimp only
      rw [List.length_set]
      exact inv.len_players
    · dsimp only
      rw [inv.len_players]
      exact Nat.mod_lt _ inv.n_pos
  · rcases make_move_take_inv hmk with ⟨c, t, hc, hg2, hlt, rfl⟩
    refine ⟨?_, inv.n_pos, inv.ap_lt, ?_, ?_, ?_, ?_, ?_⟩
    · dsimp only
      rw [List.length_set]
      exact inv.len_players
    · dsimp only
      rw [List.length_set]
      exact inv.len_owners
    · dsimp only
      rw [countP_set_isSome g.active_player g.card_owners c (inv.active_unowned c hc),
        ← inv.taken_count]
    · intro c' hc'
      exact Option.noConfusion hc'
    · intro c' hc'
      exact Option.noConfusion hc'
    · have := inv.active_nonterminal c hc
      dsimp only
      omega
  · have hg' : g' = { g with active_card := some i } := by
      rw [make_move_nextCard g i] at hmk
      exact (Option.some.inj hmk).symm
    subst hg'
    rcases hc : g.active_card with _ | c
    · by_cases hterm : g.is_terminal = true
      · rw [available_moves_chance_terminal g hc hterm] at hav
        cases Option.some.inj hav
        cases hm
      · have ht' : g.is_terminal = false := by
          cases hbool : g.is_terminal
          · rfl
          · exact absurd hbool hterm
        rw [available_moves_chance_active g hc ht'] at hav
        cases Option.some.inj hav
        rcases mem_chanceMoves.mp hm with ⟨j, hj, hget⟩
        cases Move.NextCard.inj hj
        refine ⟨inv.len_players, inv.n_pos, inv.ap_lt, inv.len_owners, inv.taken_count,
          ?_, ?_, inv.taken_le⟩
        · intro c' hc'
          cases Option.some.inj hc'
          exact hget
        · intro c' hc'
          have hnt : ¬(NUM_CARDS - DISCARDED_CARDS ≤ g.cards_taken) := by
            simpa [NoThanksGame.is_terminal] using ht'
          dsimp only
          omega
    · rcases hg2 : g.player_tokens.get? g.active_player with _ | t
      · exfalso
        simp only [NoThanksGame.available_moves, hc] at hav
        rw [hg2] at hav
        exact Option.noConfusion hav
      · rw [available_moves_player_eq g c t hc hg2] at hav
        cases Option.some.inj hav
        by_cases h0 : 0 < t
        · rw [if_pos h0] at hm
          simp at hm
        · rw [if_neg h0] at hm
          simp at hm

theorem reachable_inv {n : Nat} {g : NoThanksGame} (h : Reachable n g) : GameInv n g := by
  induction h with
  | init g hnew => exact gameInv_new hnew
  | step g ms m g' hr hav hm hmk ih => exact gameInv_step ih hav hm hmk

/-- C3: on every reachable state, `is_terminal` holds exactly when
`cards_taken` equals `NUM_CARDS - DISCARDED_CARDS` (which is 33 - 9 = 24),
`available_moves` succeeds, and it returns the empty list exactly when the
state is terminal. -/
theorem c3_terminal_boundary {n : Nat} {g : NoThanksGame} (h : Reachable n g) :
    (g.is_terminal = true ↔ g.cards_taken = NUM_CARDS - DISCARDED_CARDS)
  ∧ NUM_CARDS - DISCARDED_CARDS = 24
  ∧ (g.available_moves).isSome = true
  ∧ (g.available_moves = some [] ↔ g.is_terminal = true) := by
  have inv := reachable_inv h
  have hterm_iff : g.is_terminal = true ↔ g.cards_taken = NUM_CARDS - DISCARDED_CARDS := by
    have hle := inv.taken_le
    simp only [NoThanksGame.is_terminal, decide_eq_true_eq]
    omega
  refine ⟨hterm_iff, by decide, ?_⟩
  rcases hc : g.active_card with _ | c
  · by_cases hterm : g.is_terminal = true
    · rw [available_moves_chance_terminal g hc hterm]
      exact ⟨rfl, ⟨fun _ => hterm, fun _ => rfl⟩⟩
    · have ht' : g.is_terminal = false := by
        cases hbool : g.is_terminal
        · rfl
        · exact absurd hbool hterm
      rw [available_moves_chance_active g hc ht']
      refine ⟨rfl, ?_, ?_⟩
      · intro hempty
        exfalso
        have hnil := Option.some.inj hempty
        have hall : ∀ o ∈ g.card_owners, (fun o => Option.isSome o) o = true := by
          intro o ho
          rcases List.get?_of_mem ho with ⟨j, hj⟩
          rcases o with _ | p
          · exfalso
            have hmem : Move.NextCard j ∈ g.card_owners.enum.filterMap (fun p =>
                match p.2 with
                | none => some (Move.NextCard p.1)
                | some _ => none) := mem_chanceMoves.mpr ⟨j, rfl, hj⟩
            rw [hnil] at hmem
            cases hmem
          · rfl
        have hcount : g.card_owners.countP (fun o => o.isSome) = g.card_owners.length :=
          List.countP_eq_length.mpr hall
        have h1 := inv.taken_count
        have h2 := inv.taken_le
        have h3 := inv.len_owners
        have e1 : NUM_CARDS = 33 := rfl
        have e2 : DISCARDED_CARDS = 9 := rfl
        omega
      · intro hterm2
        rw [hterm2] at ht'
        exact Bool.noConfusion ht'
  · have hlt : g.active_player < g.player_tokens.length := by
      rw [inv.len_players]
      exact inv.ap_lt
    have hg2 : g.player_tokens.get? g.active_player =
        some (g.player_tokens.get ⟨g.active_player, hlt⟩) := List.get?_eq_get hlt
    rw [available_moves_player_eq g c _ hc hg2]
    have hterm_false : g.is_terminal = false := by
      have hnt := inv.active_nonterminal c hc
      simp only [NoThanksGame.is_terminal]
      rw [decide_eq_false_iff_not]
      omega
    constructor
    · by_cases h0 : 0 < g.player_tokens.get ⟨g.active_player, hlt⟩
      · rw [if_pos h0]
        rfl
      · rw [if_neg h0]
        rfl
    · constructor
      · intro hempty
        exfalso
        by_cases h0 : 0 < g.player_tokens.get ⟨g.active_player, hlt⟩
        · rw [if_pos h0] at hempty
          have := Option.some.inj hempty
          exact List.noConfusion this
        · rw [if_neg h0] at hempty
          have := Option.some.inj hempty
          exact List.noConfusion this
      · intro hterm2
        rw [hterm2] at hterm_false
        exact Bool.noConfusion hterm_false

/-- Witness for C3 at the freshly created three-player game. -/
theorem c3_terminal_boundary_witness :
    (initialThree.is_terminal = true ↔ initialThree.cards_taken = NUM_CARDS - DISCARDED_CARDS)
  ∧ NUM_CARDS - DISCARDED_CARDS = 24
  ∧ (initialThree.available_moves).isSome = true
  ∧ (initialThree.available_moves = some [] ↔ initialThree.is_terminal = true) :=
  c3_terminal_boundary (Reachable.init initialThree (by decide) : Reachable 3 initialThree)

theorem reachable_total {n : Nat} {g : NoThanksGame} (h : Reachable n g) :
    ∃ t, startingTokensFor n = some t ∧
      g.player_tokens.sum + g.active_tokens = n * t := by
  induction h with
  | init g hnew =>
    unfold NoThanksGame.new at hnew
    rcases hst : startingTokensFor n with _ | t <;> rw [hst] at hnew <;> dsimp only at hnew
    · exact Option.noConfusion hnew
    · cases Option.some.inj hnew
      refine ⟨t, rfl, ?_⟩
      dsimp only
      rw [List.sum_replicate, smul_eq_mul]
      omega
  | step g ms m g' hr hav hm hmk ih =>
    rcases ih with ⟨t0, hst, hsum⟩
    refine ⟨t0, hst, ?_⟩
    rcases m with _ | _ | i
    · rcases make_move_pass_inv hmk with ⟨t, hg2, ht, rfl⟩
      have hs := sum_set_nat (t - 1) g.player_tokens g.active_player t hg2
      dsimp only
      omega
    · rcases make_move_take_inv hmk with ⟨c, t, hc, hg2, hlt, rfl⟩
      have hs := sum_set_nat (t + g.active_tokens) g.player_tokens g.active_player t hg2
      dsimp only
      omega
    · rw [make_move_nextCard g i] at hmk
      cases Option.some.inj hmk
      exact hsum

/-- C4: the grand token total (player reserves plus the on-card pool) is the
same in any two states reachable in an `n`-player game: reveals and passes
leave it unchanged and a take merely transfers the pool to the taker. -/
theorem c4_token_conservation {n : Nat} {g g' : NoThanksGame}
    (h : Reachable n g) (h' : Reachable n g') :
    g.player_tokens.sum + g.active_tokens = g'.player_tokens.sum + g'.active_tokens := by
  rcases reachable_total h with ⟨t, hst, e⟩
  rcases reachable_total h' with ⟨t', hst', e'⟩
  rw [hst] at hst'
  cases Option.some.inj hst'
  rw [e, e']

/-- Witness for C4: the fresh three-player game and the position after the
first reveal carry the same 33-token grand total. -/
theorem c4_token_conservation_witness :
    initialThree.player_tokens.sum + initialThree.active_tokens =
      revealedThree.player_tokens.sum + revealedThree.active_tokens :=
  c4_token_conservation (Reachable.init initialThree (by decide) : Reachable 3 initialThree)
    (Reachable.step initialThree
      (initialThree.card_owners.enum.filterMap (fun p =>
        match p.2 with
        | none => some (Move.NextCard p.1)
        | some _ => none))
      (Move.NextCard 0) revealedThree
      (Reachable.init initialThree (by decide) : Reachable 3 initialThree)
      (available_moves_chance_active initialThree rfl rfl)
      (by decide) rfl)

theorem scoreLoop_spec : ∀ (rest : List (Option Nat)) (i : Nat) (lo : Option Nat)
    (scores : List Int),
    (∀ o ∈ rest, ∀ p ∈ o, p < scores.length) →
    ∃ res, scoreLoop rest i lo scores = some res ∧ res.length = scores.length ∧
      ∀ q v, scores.get? q = some v → res.get? q = some (v + restCredit rest i lo q) := by
  intro rest
  induction rest with
  | nil =>
    intro i lo scores hwf
    refine ⟨scores, rfl, rfl, fun q v hv => ?_⟩
    simp only [restCredit]
    rw [add_zero]
    exact hv
  | cons o rest' ih =>
    intro i lo scores hwf
    have hwf' : ∀ o ∈ rest', ∀ p ∈ o, p < scores.length :=
      fun o ho => hwf o (List.mem_cons_of_mem _ ho)
    by_cases heq : o = lo
    · subst heq
      rcases ih (i + 1) o scores hwf' with ⟨res, hres, hlen, hget⟩
      refine ⟨res, ?_, hlen, ?_⟩
      · simp only [scoreLoop, if_pos rfl]
        exact hres
      · intro q v hv
        rw [hget q v hv]
        simp only [restCredit]
        rw [if_neg (by rintro ⟨h1, h2⟩; exact h2 rfl), zero_add]
    · rcases ho : o with _ | p
      · subst ho
        rcases ih (i + 1) none scores hwf' with ⟨res, hres, hlen, hget⟩
        refine ⟨res, ?_, hlen, ?_⟩
        · simp only [scoreLoop]
          rw [if_neg heq]
          exact hres
        · intro q v hv
          rw [hget q v hv]
          simp only [restCredit]
          rw [if_neg (by rintro ⟨h1, h2⟩; exact Option.noConfusion h1), zero_add]
      · subst ho
        have hp : p < scores.length := hwf (some p) (List.mem_cons_self _ _) p rfl
        have hv0 : scores.get? p = some (scores.get ⟨p, hp⟩) := List.get?_eq_get hp
        have hwf2 : ∀ o ∈ rest', ∀ pp ∈ o,
            pp < (scores.set p (scores.get ⟨p, hp⟩ + ((i + LOW_CARD : Nat) : Int))).length := by
          intro o ho pp hpp
          rw [List.length_set]
          exact hwf' o ho pp hpp
        rcases ih (i + 1) (some p)
            (scores.set p (scores.get ⟨p, hp⟩ + ((i + LOW_CARD : Nat) : Int))) hwf2 with
          ⟨res, hres, hlen, hget⟩
        refine ⟨res, ?_, ?_, ?_⟩
        · simp only [scoreLoop]
          rw [if_neg heq, hv0]
          exact hres
        · rw [hlen, List.length_set]
        · intro q v hv
          by_cases hqp : q = p
          · subst hqp
            have hsv : v = scores.get ⟨q, hp⟩ := by
              rw [hv0] at hv
              exact (Option.some.inj hv).symm
            have hset : (scores.set q (scores.get ⟨q, hp⟩ + ((i + LOW_CARD : Nat) : Int))).get? q =
                some (scores.get ⟨q, hp⟩ + ((i + LOW_CARD : Nat) : Int)) := by
              rw [List.get?_set_eq, hv0]
              rfl
            rw [hget q _ hset]
            simp only [restCredit]
            have hcond : True ∧ (some q : Option Nat) ≠ lo := ⟨trivial, heq⟩
            rw [if_pos hcond, hsv]
            congr 1
            ring
          · have hset : (scores.set p (scores.get ⟨p, hp⟩ + ((i + LOW_CARD : Nat) : Int))).get? q =
                scores.get? q := List.get?_set_ne _ _ (fun h => hqp h.symm)
            rw [hget q v (by rw [hset]; exact hv)]
            simp only [restCredit]
            rw [if_neg (by rintro ⟨h1, h2⟩; exact hqp (Option.some.inj h1).symm), zero_add]

theorem prevAt_cons (o : Option Nat) (rest' : List (Option Nat)) (lo : Option Nat) :
    ∀ j : Nat, prevAt o rest' j = (o :: rest').get? j := by
  intro j
  rcases j with _ | k
  · rfl
  · rw [List.get?_cons_succ]
    rfl

theorem restCredit_eq_sum (q : Nat) : ∀ (rest : List (Option Nat)) (i : Nat) (lo : Option Nat),
    restCredit rest i lo q = ∑ j in Finset.range rest.length,
      (if rest.get? j = some (some q) ∧ prevAt lo rest j ≠ some (some q)
        then ((i + j + LOW_CARD : Nat) : Int) else 0) := by
  intro rest
  induction rest with
  | nil =>
    intro i lo
    simp [restCredit]
  | cons o rest' ih =>
    intro i lo
    rw [List.length_cons, Finset.sum_range_succ']
    simp only [restCredit]
    rw [ih (i + 1) o, add_comm]
    congr 1
    · apply Finset.sum_congr rfl
      intro j hj
      apply if_congr
      · rw [List.get?_cons_succ]
        have hp1 : prevAt lo (o :: rest') (j + 1) = (o :: rest').get? j := rfl
        rw [hp1, prevAt_cons o rest' lo j]
      · exact congrArg Nat.cast (by omega)
      · rfl
    · apply if_congr
      · rw [List.get?_cons_zero]
        have hp0 : prevAt lo (o :: rest') 0 = some lo := rfl
        rw [hp0]
        constructor
        · rintro ⟨h1, h2⟩
          subst h1
          refine ⟨rfl, fun hlo => h2 ?_⟩
          exact (Option.some.inj hlo).symm
        · rintro ⟨h1, h2⟩
          have h1' : o = some q := Option.some.inj h1
          subst h1'
          refine ⟨rfl, fun hlo => h2 ?_⟩
          rw [← hlo]
      · exact congrArg Nat.cast (by omega)
      · rfl

theorem restCredit_eq_runCredit (owners : List (Option Nat)) (q : Nat) :
    restCredit owners 0 none q = runCredit owners q := by
  rw [restCredit_eq_sum q owners 0 none, runCredit]
  apply Finset.sum_congr rfl
  intro j hj
  apply if_congr
  · unfold runStart
    rcases j with _ | k
    · have hp0 : prevAt none owners 0 = some none := rfl
      rw [hp0]
      constructor
      · rintro ⟨h1, h2⟩
        exact ⟨h1, Or.inl rfl⟩
      · rintro ⟨h1, h2⟩
        exact ⟨h1, fun hno => Option.noConfusion (Option.some.inj hno)⟩
    · have hp1 : prevAt none owners (k + 1) = owners.get? k := rfl
      rw [hp1]
      constructor
      · rintro ⟨h1, h2⟩
        refine ⟨h1, Or.inr ?_⟩
        simpa using h2
      · rintro ⟨h1, h2⟩
        refine ⟨h1, ?_⟩
        rcases h2 with h2 | h2
        · exact absurd h2 (by omega)
        · simpa using h2
  · exact congrArg Nat.cast (by omega)
  · rfl

/-- C2: `compute_scores` returns one integer per player: each player's entry
is the negation of their token reserve plus, for every maximal run of
consecutive card indices they own, the face value of the run's lowest card
only — for every state, terminal or not (with well-formed owner indices). -/
theorem c2_compute_scores_runs (g : NoThanksGame)
    (hwf : ∀ o ∈ g.card_owners, ∀ p ∈ o, p < g.player_tokens.length) :
    g.compute_scores = some (specScores g) ∧
    (specScores g).length = g.player_tokens.length := by
  constructor
  · unfold NoThanksGame.compute_scores
    have hwf' : ∀ o ∈ g.card_owners, ∀ p ∈ o,
        p < (g.player_tokens.map (fun (t : Nat) => -(t : Int))).length := by
      intro o ho p hp
      rw [List.length_map]
      exact hwf o ho p hp
    rcases scoreLoop_spec g.card_owners 0 none _ hwf' with ⟨res, hres, hlen, hget⟩
    rw [hres]
    congr 1
    apply List.ext
    intro q
    by_cases hq : q < g.player_tokens.length
    · have hvm : (g.player_tokens.map (fun (t : Nat) => -(t : Int))).get? q =
          some (-(g.player_tokens.get ⟨q, hq⟩ : Int)) := by
        rw [List.get?_map, List.get?_eq_get hq]
        rfl
      rw [hget q _ hvm]
      unfold specScores
      rw [List.get?_map, List.get?_range hq]
      rw [restCredit_eq_runCredit, Option.map_some', List.get?_eq_get hq]
      rfl
    · have h1 : res.get? q = none := by
        rw [List.get?_eq_none, hlen, List.length_map]
        omega
      have h2 : ((List.range g.player_tokens.length).map (fun p =>
          -((((g.player_tokens.get? p).getD 0 : Nat)) : Int) + runCredit g.card_owners p)).get? q =
          none := by
        rw [List.get?_eq_none, List.length_map, List.length_range]
        omega
      unfold specScores
      rw [h1, h2]
  · simp [specScores]

/-- Witness for C2 at `scoringState`: player 0's run 6, 7 counts as 6 and
player 1's solitary 13 as 13. -/
theorem c2_compute_scores_runs_witness :
    scoringState.compute_scores = some (specScores scoringState) ∧
    (specScores scoringState).length = scoringState.player_tokens.length :=
  c2_compute_scores_runs scoringState (by decide)

theorem get?_lt_of_some {l : List Nat} {i v : Nat} (h : l.get? i = some v) : i < l.length := by
  by_contra hno
  rw [List.get?_eq_none.mpr (by omega)] at h
  exact Option.noConfusion h

theorem passUntil_bankrupt : ∀ (k : Nat) (g : NoThanksGame) (tokens : Nat),
    k < tokens - g.active_tokens →
    g.player_tokens.get? ((g.active_player + k) % g.player_tokens.length) =
      some (k / g.player_tokens.length) →
    passUntil tokens g = none := by
  intro k
  induction k with
  | zero =>
    intro g tokens hk hget
    have ha : g.active_tokens < tokens := by omega
    rw [Nat.add_zero, Nat.zero_div] at hget
    have hnone : g.make_move Move.Pass = none := by
      by_cases hap : g.active_player < g.player_tokens.length
      · rw [Nat.mod_eq_of_lt hap] at hget
        simp only [NoThanksGame.make_move]
        rw [hget]
        rfl
      · have hn : g.player_tokens.get? g.active_player = none := by
          rw [List.get?_eq_none]
          omega
        simp only [NoThanksGame.make_move]
        rw [hn]
    rw [passUntil, dif_pos ha]
    split
    · rfl
    · rename_i g' heq
      rw [hnone] at heq
      exact Option.noConfusion heq
  | succ k ih =>
    intro g tokens hk hget
    have ha : g.active_tokens < tokens := by omega
    rcases hmm : g.make_move Move.Pass with _ | g'
    · rw [passUntil, dif_pos ha]
      split
      · rfl
      · rename_i g' heq
        rw [hmm] at heq
        exact Option.noConfusion heq
    · rcases make_move_pass_inv hmm with ⟨t, hg2, ht, hg'⟩
      have hap : g.active_player < g.player_tokens.length := get?_lt_of_some hg2
      have hn : 0 < g.player_tokens.length := by omega
      have hidx : ((g.active_player + 1) % g.player_tokens.length + k) % g.player_tokens.length
          = (g.active_player + (k + 1)) % g.player_tokens.length := by
        rw [Nat.mod_add_mod]
        exact congrArg (fun x => x % g.player_tokens.length) (by omega)
      have hstep : g'.player_tokens.get?
          ((g'.active_player + k) % g'.player_tokens.length) =
            some (k / g'.player_tokens.length) := by
        subst hg'
        dsimp only
        rw [List.length_set, hidx]
        by_cases hdvd : g.player_tokens.length ∣ (k + 1)
        · rcases hdvd with ⟨q, hq⟩
          have hj : (g.active_player + (k + 1)) % g.player_tokens.length = g.active_player := by
            rw [hq, Nat.add_mul_mod_self_left, Nat.mod_eq_of_lt hap]
          rw [hj] at hget ⊢
          have htv : t = (k + 1) / g.player_tokens.length := by
            rw [hg2] at hget
            exact Option.some.inj hget
          have hsd : (k + 1) / g.player_tokens.length = k / g.player_tokens.length + 1 := by
            rw [Nat.succ_div, if_pos ⟨q, hq⟩]
          have hv : t - 1 = k / g.player_tokens.length := by omega
          rw [List.get?_set_eq, hg2]
          simp [hv]
        · have hr0 : (k + 1) % g.player_tokens.length ≠ 0 := by
            intro h0
            exact hdvd (Nat.dvd_iff_mod_eq_zero.mpr h0)
          have hrlt : (k + 1) % g.player_tokens.length < g.player_tokens.length :=
            Nat.mod_lt _ hn
          have hj : (g.active_player + (k + 1)) % g.player_tokens.length =
              (g.active_player + (k + 1) % g.player_tokens.length) %
                g.player_tokens.length := by
            conv_lhs => rw [Nat.add_mod]
            rw [Nat.mod_eq_of_lt hap]
          have hne : (g.active_player + (k + 1) % g.player_tokens.length) %
              g.player_tokens.length ≠ g.active_player := by
            by_cases hlt : g.active_player + (k + 1) % g.player_tokens.length <
                g.player_tokens.length
            · rw [Nat.mod_eq_of_lt hlt]
              omega
            · rw [Nat.mod_eq_sub_mod (by omega),
                Nat.mod_eq_of_lt (by omega :
                  g.active_player + (k + 1) % g.player_tokens.length -
                    g.player_tokens.length < g.player_tokens.length)]
              omega
          rw [hj] at hget ⊢
          rw [List.get?_set_ne _ _ (fun hcontra => hne hcontra.symm), hget]
          have hsd : (k + 1) / g.player_tokens.length = k / g.player_tokens.length := by
            rw [Nat.succ_div, if_neg hdvd, Nat.add_zero]
          rw [hsd]
      have hfuel : k < tokens - g'.active_tokens := by
        have : g'.active_tokens = g.active_tokens + 1 := by
          subst hg'
          rfl
        omega
      rw [passUntil, dif_pos ha]
      split
      · rfl
      · rename_i g'' heq
        rw [hmm] at heq
        cases Option.some.inj heq
        exact ih g' tokens hfuel hstep

/-- C7: reconstruction from a fresh-reveal checkpoint with a reported on-card
total that the players' reserves cannot sustain — the player due at some pass
step `k < total` holds exactly `k / n` tokens, so their reserve is zero when
their turn to pass arrives — fails with `none` rather than looping; the
failing `PassTurn` produces no state, so no illegal pass is ever applied to
the checkpoint. -/
theorem c7_reconstruction_fails (g : NoThanksGame) (c tokens : Nat)
    (hcard : g.active_card = some c) (hfresh : g.active_tokens = 0)
    (hbankrupt : ∃ k, k < tokens ∧
      g.player_tokens.get? ((g.active_player + k) % g.player_tokens.length) =
        some (k / g.player_tokens.length)) :
    reconstruct g tokens = none := by
  rcases hbankrupt with ⟨k, hk, hget⟩
  have hfail : passUntil tokens g = none :=
    passUntil_bankrupt k g tokens (by omega) hget
  unfold reconstruct
  rw [hfail]

/-- Witness for C7: a fresh reveal where the player to act is out of tokens
and the observer reports 5 on-card tokens. -/
theorem c7_reconstruction_fails_witness :
    reconstruct bankruptCheckpoint 5 = none :=
  c7_reconstruction_fails bankruptCheckpoint 0 5 rfl rfl ⟨0, by omega, by decide⟩
